import Mathlib

/-!
Shallow embedding of the University_AI_Chatbot repository
(`data_scraper.py` and `uom_ai_chatbot.py`) and verification of the
specification claims about it.

External collaborators (HTTP retrieval via `requests`, HTML parsing via
`BeautifulSoup`, and URL resolution via `urljoin`) are modelled as an
oracle `Web : String → Option SPage` mapping a URL to the fetched page
(`none` models `requests.exceptions.RequestException`); a page carries
the already-resolved absolute URLs of its anchors and the text of its
paragraph nodes.  Python floats are modelled as rationals; a Python
exception escaping a function is modelled by an `Option`/pair result.
-/

/-! ### Python string helpers

These are written over `List Char` so that the kernel can evaluate them
(the corresponding core `String` functions are defined by well-founded
recursion on byte positions and do not reduce definitionally). -/

/-- Model of `s.lower()` (ASCII). -/
def toLowerStr (s : String) : String := String.mk (s.toList.map Char.toLower)

/-- Model of `s.strip()`: remove leading and trailing whitespace. -/
def pyStrip (s : String) : String :=
  String.mk (((s.toList.dropWhile Char.isWhitespace).reverse.dropWhile Char.isWhitespace).reverse)

/-- Worker for `pySplitWs`: current partial word is accumulated reversed. -/
def splitWsAux : List Char → List Char → List String
  | [], acc => if acc.isEmpty then [] else [String.mk acc.reverse]
  | c :: rest, acc =>
    if c.isWhitespace then
      if acc.isEmpty then splitWsAux rest []
      else String.mk acc.reverse :: splitWsAux rest []
    else splitWsAux rest (c :: acc)

/-- Model of `s.split()` with no argument: the maximal non-whitespace runs. -/
def pySplitWs (s : String) : List String := splitWsAux s.toList []

/-- Model of `s.split(sep)` for a one-character separator (keeps empty pieces,
exactly like Python). -/
def splitOnChar (sep : Char) : List Char → List (List Char)
  | [] => [[]]
  | c :: rest =>
    if c = sep then [] :: splitOnChar sep rest
    else
      match splitOnChar sep rest with
      | [] => [[c]]
      | t :: ts => (c :: t) :: ts

/-- Model of `s.take n` by characters (Python `s[:n]`). -/
def pyTake (s : String) (n : Nat) : String := String.mk (s.toList.take n)

/-- Model of `s.endswith(suffix)`. -/
def strEndsWith (s suffix : String) : Bool := suffix.toList.isSuffixOf s.toList

/-- Keep-first deduplication (the distinct elements of a list, in first
occurrence order), with an explicit seen-set accumulator. -/
def dedupAux : List String → List String → List String
  | [], _ => []
  | x :: rest, seen =>
    if x ∈ seen then dedupAux rest seen
    else x :: dedupAux rest (x :: seen)

/-- The distinct elements of a list (Python `set(l)` with deterministic
first-occurrence order). -/
def listDedup (l : List String) : List String := dedupAux l []

/-- Is `needle` a contiguous infix of `hay`? -/
def listInfixOf (needle : List Char) : List Char → Bool
  | [] => needle.isEmpty
  | c :: rest => needle.isPrefixOf (c :: rest) || listInfixOf needle rest

/-- Python's substring test `needle in hay`. -/
def strContains (hay needle : String) : Bool := listInfixOf needle.toList hay.toList

/-- Model of `re.sub(r'\s+', ' ', s).strip()`: collapse whitespace runs to single
spaces and trim the ends. -/
def collapseWs (s : String) : String :=
  String.intercalate " " (pySplitWs s)

/-! ### `data_scraper.py` -/

/-- A fetched page: anchor targets (absolute URLs, as produced by
`urljoin(url, href)` on each `<a href>`) and the `.text` of each `<p>`. -/
structure SPage where
  anchors : List String
  paragraphs : List String
  deriving Repr, DecidableEq

/-- The reachable web; `none` models a request exception
(network error, timeout, or non-success status via `raise_for_status`). -/
abbrev Web := String → Option SPage

def base_url : String := "https://uom.edu.pk"

/-- Split an absolute URL at the first `://`; `none` when absent. -/
def splitSchemeRest : List Char → Option (List Char × List Char)
  | [] => none
  | c :: rest =>
    if [':', '/', '/'].isPrefixOf (c :: rest) then some ([], rest.drop 2)
    else (splitSchemeRest rest).map (fun p => (c :: p.1, p.2))

/-- Model of `urlparse(u).scheme` for absolute URLs. -/
def urlScheme (u : String) : String :=
  match splitSchemeRest u.toList with
  | some p => String.mk p.1
  | none => ""

/-- Model of `urlparse(u).netloc` for absolute URLs. -/
def urlNetloc (u : String) : String :=
  match splitSchemeRest u.toList with
  | some p => String.mk (p.2.takeWhile (fun c => c ≠ '/'))
  | none => ""

/-- Model of `is_valid(url)`: scheme is http/https and host equals the seed's host. -/
def is_valid (url : String) : Bool :=
  (urlScheme url = "http" || urlScheme url = "https") && urlNetloc url = urlNetloc base_url

/-- Model of `full_url.split('#')[0]` applied when `'#' in full_url`. -/
def stripFragment (u : String) : String :=
  if '#' ∈ u.toList then String.mk ((splitOnChar '#' u.toList).headD []) else u

/-- The anchor loop of `get_all_links`: build the set `links` of valid
same-domain URLs not already visited (set membership modelled by the
accumulator test). -/
def collectLinks (visited : List String) : List String → List String → List String
  | [], acc => acc
  | href :: rest, acc =>
    let full := stripFragment href
    if is_valid full ∧ full ∉ visited ∧ full ∉ acc then
      collectLinks visited rest (acc ++ [full])
    else
      collectLinks visited rest acc

/-- Result of `get_all_links`: the links, the soup (`none` on a request
exception) and the updated visited set. -/
structure FetchOut where
  links : List String
  soup : Option SPage
  visited : List String
  deriving Repr, DecidableEq

/-- Model of `get_all_links(url)`: fetch a page and get all valid links from it.
On a request exception it returns `([], None)` and leaves the visited
set untouched; on success it also adds `url` to the visited set. -/
def get_all_links (web : Web) (visited : List String) (url : String) : FetchOut :=
  match web url with
  | none => ⟨[], none, visited⟩
  | some page =>
    let links := collectLinks visited page.anchors []
    ⟨links, some page, if url ∈ visited then visited else visited ++ [url]⟩

/-- The loop of `find_pdfs`: append each anchor URL ending in `.pdf`
(case-insensitively) to the pdf list if not already present. -/
def findPdfsLoop : List String → List String → List String
  | [], pdfs => pdfs
  | href :: rest, pdfs =>
    if strEndsWith (toLowerStr href) ".pdf" ∧ href ∉ pdfs then
      findPdfsLoop rest (pdfs ++ [href])
    else
      findPdfsLoop rest pdfs

/-- Model of `urlparse(u).path` for absolute URLs: everything from the first `/`
after the host. -/
def urlPathAfterHost (u : String) : String :=
  match splitSchemeRest u.toList with
  | some p => String.mk (p.2.dropWhile (fun c => c ≠ '/'))
  | none => ""

/-- Model of `s.strip('/')`. -/
def stripSlashes (s : String) : String :=
  String.mk (((s.toList.dropWhile (· = '/')).reverse.dropWhile (· = '/')).reverse)

/-- Model of `path.strip('/').replace('/', '_') or 'index'`. -/
def slugOf (u : String) : String :=
  let f := String.mk ((stripSlashes (urlPathAfterHost u)).toList.map
    (fun c => if c = '/' then '_' else c))
  if f = "" then "index" else f

/-- Model of `save_content(url, content)`: write the page text under the slug,
skipping if a file for that slug already exists. -/
def save_content (store : List (String × String)) (url content : String) :
    List (String × String) :=
  let filename := slugOf url
  if filename ∈ store.map Prod.fst then store else store ++ [(filename, content)]

/-- Model of `' '.join(p.text for p in soup.find_all('p'))` cleaned up. -/
def extract_text (page : SPage) : String :=
  collapseWs (String.intercalate " " page.paragraphs)

/-- The enqueue loop of `crawl`: for each link not yet visited, mark it
visited and append it to the queue (the `admitted` list is an
observation trace recording every URL ever admitted to the queue). -/
def enqueueLinks : List String → List String → List String → List String →
    List String × List String × List String
  | [], v, q, a => (v, q, a)
  | link :: rest, v, q, a =>
    if link ∈ v then enqueueLinks rest v q a
    else enqueueLinks rest (v ++ [link]) (q ++ [link]) (a ++ [link])

/-- The mutable crawl state: visited set, pdf list, saved files and the
FIFO queue, plus two observation traces: `admitted` records every URL
ever admitted to the queue, and `fetched` records every URL dequeued
(and hence passed to `get_all_links`). -/
structure CrawlState where
  visited : List String
  pdf_links : List String
  store : List (String × String)
  queue : List String
  admitted : List String
  fetched : List String
  deriving Repr, DecidableEq

/-- The `while queue:` loop of `crawl`, with explicit fuel standing in
for the unbounded iteration. -/
def crawlLoop (web : Web) : Nat → CrawlState → CrawlState
  | 0, s => s
  | Nat.succ f, s =>
    match s.queue with
    | [] => s
    | current :: rest =>
      let out := get_all_links web s.visited current
      match out.soup with
      | none => crawlLoop web f
          { s with visited := out.visited, queue := rest,
                   fetched := s.fetched ++ [current] }
      | some page =>
        let page_text := extract_text page
        let store' := if page_text ≠ "" then save_content s.store current page_text else s.store
        let pdfs' := findPdfsLoop page.anchors s.pdf_links
        let vqa := enqueueLinks out.links out.visited rest s.admitted
        crawlLoop web f
          { visited := vqa.1, pdf_links := pdfs', store := store',
            queue := vqa.2.1, admitted := vqa.2.2,
            fetched := s.fetched ++ [current] }

/-- Model of `crawl(start_url)`: seed the queue and the visited set and run the
loop.  Note the source function takes only the start URL — there is no
page-count parameter. -/
def crawl (web : Web) (fuel : Nat) (start_url : String) : CrawlState :=
  crawlLoop web fuel
    { visited := [start_url], pdf_links := [], store := [],
      queue := [start_url], admitted := [start_url], fetched := [] }

/-! ### `uom_ai_chatbot.py`: knowledge base records -/

/-- A row of the `pages` table. -/
structure PageRec where
  url : String
  title : String
  content : String
  content_type : String
  deriving Repr, DecidableEq

/-- A row of the `faculty` table (`None`/missing modelled as `""`,
matching Python truthiness in the formatting code). -/
structure FacultyRec where
  name : String
  designation : String
  department : String
  email : String
  research_interests : String
  bio : String
  deriving Repr, DecidableEq

/-- A row of the `departments` table. -/
structure DeptRec where
  name : String
  description : String
  head : String
  faculty_count : String
  programs : String
  deriving Repr, DecidableEq

/-- A row of the `notifications` table. -/
structure NotifRec where
  title : String
  date : String
  content : String
  deriving Repr, DecidableEq

/-- The durable sqlite store with its four tables. -/
structure DB where
  pages : List PageRec
  faculty : List FacultyRec
  departments : List DeptRec
  notifications : List NotifRec
  deriving Repr, DecidableEq

/-- The loaded in-memory knowledge base, including the two lookup
indexes built by `build_indexes` (a Python `dict` is modelled as an
association list in insertion order). -/
structure KB where
  pages : List PageRec
  faculty : List FacultyRec
  departments : List DeptRec
  notifications : List NotifRec
  faculty_index : List (String × FacultyRec)
  department_index : List (String × DeptRec)
  deriving Repr, DecidableEq

/-- Model of `d[k] = v` on a Python dict as an association list: update in place
if the key exists (keeping its position), else append. -/
def insertOrUpdate {α : Type} (idx : List (String × α)) (k : String) (v : α) :
    List (String × α) :=
  if idx.any (fun p => decide (p.1 = k)) then
    idx.map (fun p => if p.1 = k then (k, v) else p)
  else idx ++ [(k, v)]

/-- The faculty half of `build_indexes`. -/
def build_faculty_index (faculty : List FacultyRec) : List (String × FacultyRec) :=
  faculty.foldl (fun idx faculty_member =>
    let name := toLowerStr faculty_member.name
    if name ≠ "" then insertOrUpdate idx name faculty_member else idx) []

/-- The department half of `build_indexes`. -/
def build_department_index (departments : List DeptRec) : List (String × DeptRec) :=
  departments.foldl (fun idx dept =>
    let name := toLowerStr dept.name
    if name ≠ "" then insertOrUpdate idx name dept else idx) []

/-- Model of `load_knowledge_base`: raise `FileNotFoundError` when the database
file does not exist, else bulk-load the four collections.  The
filesystem-and-sqlite pair is modelled by `fs : String → Option DB`
(`none` = no file at that path). -/
def load_knowledge_base (data_dir : String) (fs : String → Option DB) : Except String DB :=
  let db_path := data_dir ++ "/university_knowledge.db"
  match fs db_path with
  | none => Except.error ("Knowledge base not found at " ++ db_path ++
      ". Please run data_scraper.py first.")
  | some conn => Except.ok
      { pages := conn.pages, faculty := conn.faculty,
        departments := conn.departments, notifications := conn.notifications }

/-- Model of `UniversityKnowledgeBase.__init__`: load the store, then build the
two lookup indexes. -/
def mkKnowledgeBase (data_dir : String) (fs : String → Option DB) : Except String KB :=
  (load_knowledge_base data_dir fs).map (fun db =>
    { pages := db.pages, faculty := db.faculty, departments := db.departments,
      notifications := db.notifications,
      faculty_index := build_faculty_index db.faculty,
      department_index := build_department_index db.departments })

/-! ### Text processing and relevance scoring -/

/-- The fixed stop-word list. -/
def stopwords : List String :=
  ["the", "a", "an", "and", "or", "but", "in", "on", "at", "to", "for", "of",
   "with", "by", "is", "are", "was", "were", "be", "been", "have", "has",
   "had", "do", "does", "did", "will", "would", "could", "should"]

/-- Model of `\w` (ASCII): letters, digits, underscore. -/
def isWordChar (c : Char) : Bool := c.isAlphanum || c = '_'

/-- Model of `preprocess_text`: lowercase, replace characters matching
`[^\w\s]` with spaces, split on whitespace, drop stop-words and tokens
of length ≤ 2. -/
def preprocess_text (text : String) : List String :=
  let cleaned := String.mk ((toLowerStr text).toList.map (fun c =>
    if isWordChar c || c.isWhitespace then c else ' '))
  (pySplitWs cleaned).filter (fun word =>
    decide (word ∉ stopwords) && decide (2 < word.length))

/-- The term-frequency loop of `calculate_tf_idf`:
`for word in query_words: tf = freq(word)/n; if tf > 0: tf_score += tf`. -/
def tfLoop (doc_words : List String) (n : ℚ) : List String → ℚ → ℚ
  | [], tf_score => tf_score
  | word :: rest, tf_score =>
    let tf : ℚ := (doc_words.count word : ℚ) / n
    if 0 < tf then tfLoop doc_words n rest (tf_score + tf)
    else tfLoop doc_words n rest tf_score

/-- Model of `calculate_tf_idf(query_words, document)`.  Returns `none` when the
final line `tf_score * len([w for w in query_words if w in doc_words])
/ len(query_words)` raises `ZeroDivisionError` (empty query-word list
against a document with at least one surviving token). -/
def calculate_tf_idf (query_words : List String) (document : String) : Option ℚ :=
  let doc_words := preprocess_text document
  let doc_word_count := doc_words.length
  if doc_word_count = 0 then some 0
  else
    let tf_score := tfLoop doc_words (doc_word_count : ℚ) query_words 0
    if query_words.length = 0 then none
    else some (tf_score * ((query_words.filter (fun w => decide (w ∈ doc_words))).length : ℚ)
      / (query_words.length : ℚ))

/-- Structure for search results. -/
structure SearchResult where
  content : String
  title : String
  url : String
  category : String
  relevance_score : ℚ
  snippet : String
  deriving Repr, DecidableEq

/-- The sentence loop of `create_snippet`, keeping the first sentence
achieving the maximum distinct-overlap score. -/
def snippetBest (query_words : List String) : List String → String → Nat → String
  | [], best_sentence, _ => best_sentence
  | sentence :: rest, best_sentence, best_score =>
    let sentence_words := preprocess_text sentence
    let score := ((listDedup query_words).filter (fun w => decide (w ∈ sentence_words))).length
    if best_score < score then snippetBest query_words rest (pyStrip sentence) score
    else snippetBest query_words rest best_sentence best_score

/-- Model of `create_snippet(content, query_words, snippet_length=200)`. -/
def create_snippet (content : String) (query_words : List String)
    (snippet_length : Nat) : String :=
  let sentences := (splitOnChar '.' content.toList).map String.mk
  let best_sentence := snippetBest query_words sentences "" 0
  let best_sentence :=
    if snippet_length < best_sentence.length then pyTake best_sentence snippet_length ++ "..."
    else best_sentence
  if best_sentence ≠ "" then best_sentence else pyTake content snippet_length ++ "..."

/-- Model of `results.sort(key=lambda x: x.relevance_score, reverse=True)`:
Python's sort is stable, so equal scores keep load order. -/
def sortByRelevanceDesc (l : List SearchResult) : List SearchResult :=
  l.insertionSort (fun a b => b.relevance_score < a.relevance_score)

/-- Model of `semantic_search(query, limit)`: score every page, keep positive
scores with their snippets, sort descending, return the top `limit`.
A score computation raising propagates out (hence `Option`). -/
def semantic_search (kb : KB) (query : String) (limit : Nat) :
    Option (List SearchResult) := do
  let query_words := preprocess_text query
  let results ← kb.pages.foldlM (fun (acc : List SearchResult) page => do
    let relevance ← calculate_tf_idf query_words page.content
    if 0 < relevance then
      pure (acc ++ [{ content := page.content, title := page.title, url := page.url,
                      category := page.content_type, relevance_score := relevance,
                      snippet := create_snippet page.content query_words 200 }])
    else pure acc) []
  pure ((sortByRelevanceDesc results).take limit)

/-! ### Lookup helpers -/

/-- Model of `find_faculty_by_name(name)`: exact lowercased-key lookup first,
then the first entry in index order whose key contains the whole query
or any whitespace-separated part of it. -/
def find_faculty_by_name (faculty_index : List (String × FacultyRec)) (name : String) :
    Option FacultyRec :=
  let name_lower := toLowerStr name
  match (faculty_index.find? (fun p => decide (p.1 = name_lower))).map Prod.snd with
  | some r => some r
  | none =>
    (faculty_index.find? (fun p =>
      strContains p.1 name_lower ||
        (pySplitWs name_lower).any (fun part => strContains p.1 part))).map Prod.snd

/-- Model of `get_department_info(dept_name)`: same shape as
`find_faculty_by_name` over the department index. -/
def get_department_info (department_index : List (String × DeptRec)) (dept_name : String) :
    Option DeptRec :=
  let dept_lower := toLowerStr dept_name
  match (department_index.find? (fun p => decide (p.1 = dept_lower))).map Prod.snd with
  | some r => some r
  | none =>
    (department_index.find? (fun p =>
      strContains p.1 dept_lower ||
        (pySplitWs dept_lower).any (fun part => strContains p.1 part))).map Prod.snd

/-- Model of `get_recent_notifications(limit)`: stable sort by date, newest
first, then the first `limit`. -/
def get_recent_notifications (kb : KB) (limit : Nat) : List NotifRec :=
  (kb.notifications.insertionSort (fun a b => b.date < a.date)).take limit

/-! ### Intent detection -/

/-- The `intent_patterns` table, in its fixed (insertion) order. -/
def intent_patterns : List (String × List String) :=
  [("faculty_info", ["faculty", "professor", "teacher", "dr.", "dr ", "staff"]),
   ("admissions", ["admission", "apply", "application", "entry", "requirement"]),
   ("departments", ["department", "dept", "school", "faculty of"]),
   ("notifications", ["notification", "news", "announcement", "notice", "update"]),
   ("academics", ["course", "program", "degree", "semester", "exam", "result"]),
   ("research", ["research", "publication", "journal", "paper", "study"]),
   ("contact", ["contact", "phone", "email", "address", "location"]),
   ("general", ["about", "history", "information", "what is", "tell me"])]

/-- One comparison step of Python's `max(d, key=d.get)`: keep the
earlier entry unless a strictly larger value appears. -/
def pyMaxStep (best p : String × Nat) : String × Nat :=
  if best.2 < p.2 then p else best

/-- Model of `detect_intent(query)`: count keyword substring hits per category,
keep the positive ones (dict insertion order = table order), and take
`max(..., key=...)`, which returns the first key with the maximal
value; with no positive score, return `'general'`. -/
def detect_intent (query : String) : String :=
  let query_lower := toLowerStr query
  let intent_scores := (intent_patterns.map (fun ik =>
    (ik.1, (ik.2.filter (fun keyword => strContains query_lower keyword)).length))).filter
    (fun p => decide (0 < p.2))
  match intent_scores with
  | [] => "general"
  | first :: rest => (rest.foldl pyMaxStep first).1

/-! ### Entity extraction

The three person patterns `(dr\.?\s+[a-z\s]+)`, `(prof\.?\s+[a-z\s]+)`,
`(professor\s+[a-z\s]+)` and the department patterns
`(keyword)\s+([a-z\s]+)` are interpreted directly: with `IGNORECASE`,
`[a-z]` matches ASCII letters of either case, `re.search` takes the
leftmost match, and the greedy `\s+[a-z\s]+` tail consumes the maximal
run of letters-or-whitespace starting with a whitespace character
(which must be at least two characters long). -/

/-- Model of `[a-z\s]` under `IGNORECASE`. -/
def isAlphaSpaceChar (c : Char) : Bool :=
  ('a' ≤ c.toLower && c.toLower ≤ 'z') || c.isWhitespace

/-- Match `\s+[a-z\s]+` at the head of `cs`; return the number of
characters it consumes. -/
def matchWsAlphaTail (cs : List Char) : Option Nat :=
  match cs with
  | [] => none
  | c :: _ =>
    if c.isWhitespace then
      let run := (cs.takeWhile isAlphaSpaceChar).length
      if 2 ≤ run then some run else none
    else none

/-- Match `pfx\.?\s+[a-z\s]+` (dot optional only when `optDot`) at the
head of `cs`; return the total matched length. -/
def matchPersonAt (pfx : List Char) (optDot : Bool) (cs : List Char) : Option Nat :=
  if pfx.isPrefixOf (cs.map Char.toLower) then
    match cs.drop pfx.length with
    | '.' :: rest =>
      if optDot then (matchWsAlphaTail rest).map (fun t => pfx.length + 1 + t)
      else (matchWsAlphaTail ('.' :: rest)).map (fun t => pfx.length + t)
    | rest => (matchWsAlphaTail rest).map (fun t => pfx.length + t)
  else none

/-- Model of `re.search` for a person pattern: scan left to right, return the
matched span (group 1 is the whole match). -/
def searchPersonPat (pfx : String) (optDot : Bool) : List Char → Option (List Char)
  | [] => none
  | c :: cs =>
    match matchPersonAt pfx.toList optDot (c :: cs) with
    | some len => some ((c :: cs).take len)
    | none => searchPersonPat pfx optDot cs

/-- Match `\s+([a-z\s]+)` at the head of `cs`; return the characters of
the capture group. -/
def matchWsAlphaTailGroup (cs : List Char) : Option (List Char) :=
  match cs with
  | [] => none
  | c :: _ =>
    if c.isWhitespace then
      let run := cs.takeWhile isAlphaSpaceChar
      if 2 ≤ run.length then
        let w := (cs.takeWhile Char.isWhitespace).length
        if w < run.length then some (run.drop w) else some (run.drop (w - 1))
      else none
    else none

/-- Model of `re.search` for a department pattern `keyword\s+([a-z\s]+)`: scan
left to right, return the capture group of the leftmost match. -/
def searchDeptPat (kw : List Char) : List Char → Option (List Char)
  | [] => none
  | c :: cs =>
    if kw.isPrefixOf ((c :: cs).map Char.toLower) then
      match matchWsAlphaTailGroup ((c :: cs).drop kw.length) with
      | some g => some g
      | none => searchDeptPat kw cs
    else searchDeptPat kw cs

/-- The entities dict: at most one person and one department span. -/
structure Entities where
  person : Option String
  department : Option String
  deriving Repr, DecidableEq

/-- Model of `extract_entities(query)`: first matching pattern wins for each
entity type; matches are `.strip()`ped. -/
def extract_entities (query : String) : Entities :=
  let cs := query.toList
  let person :=
    match searchPersonPat "dr" true cs with
    | some m => some (pyStrip (String.mk m))
    | none =>
      match searchPersonPat "prof" true cs with
      | some m => some (pyStrip (String.mk m))
      | none => (searchPersonPat "professor" false cs).map (fun m => pyStrip (String.mk m))
  let department :=
    match searchDeptPat "department of".toList cs with
    | some g => some (pyStrip (String.mk g))
    | none =>
      match searchDeptPat "dept of".toList cs with
      | some g => some (pyStrip (String.mk g))
      | none => (searchDeptPat "faculty of".toList cs).map (fun g => pyStrip (String.mk g))
  ⟨person, department⟩

/-! ### Response composer -/

/-- Model of `f"**{result.title}**\n{result.snippet}\n\n"`. -/
def fmtTitleSnippet (r : SearchResult) : String :=
  "**" ++ r.title ++ "**\n" ++ r.snippet ++ "\n\n"

/-- The faculty card built by `handle_faculty_query` on a direct hit. -/
def facultyCard (faculty_info : FacultyRec) : String :=
  "**" ++ faculty_info.name ++ "**\n"
  ++ (if faculty_info.designation ≠ "" then
        "Position: " ++ faculty_info.designation ++ "\n" else "")
  ++ (if faculty_info.department ≠ "" then
        "Department: " ++ faculty_info.department ++ "\n" else "")
  ++ (if faculty_info.email ≠ "" then
        "Email: " ++ faculty_info.email ++ "\n" else "")
  ++ (if faculty_info.research_interests ≠ "" then
        "Research Interests: " ++ faculty_info.research_interests ++ "\n" else "")
  ++ (if faculty_info.bio ≠ "" then
        "\nBio: " ++ pyTake faculty_info.bio 200 ++ "..." else "")

/-- Model of `handle_faculty_query(query, entities)`. -/
def handle_faculty_query (kb : KB) (query : String) (entities : Entities) :
    Option String :=
  match entities.person.bind (fun p => find_faculty_by_name kb.faculty_index p) with
  | some faculty_info => some (facultyCard faculty_info)
  | none => do
    let search_results ← semantic_search kb query 3
    let faculty_results := search_results.filter (fun r => decide (r.category = "faculty"))
    if faculty_results ≠ [] then
      pure ("Here's what I found about faculty:\n\n"
        ++ String.join ((faculty_results.take 2).map fmtTitleSnippet))
    else
      pure ("I couldn't find specific faculty information. Could you provide more details or check the faculty directory on the university website?")

/-- Model of `handle_admissions_query(query)`. -/
def handle_admissions_query (kb : KB) (query : String) : Option String := do
  let search_results ← semantic_search kb query 5
  let admission_results := search_results.filter (fun r =>
    decide (r.category = "admissions") || strContains (toLowerStr r.title) "admission")
  if admission_results ≠ [] then
    pure ("**Admissions Information:**\n\n"
      ++ String.join ((admission_results.take 3).map fmtTitleSnippet)
      ++ "\nFor the most current admission requirements and deadlines, please visit the university's official admissions page.")
  else do
    let general_results ← semantic_search kb query 2
    if general_results ≠ [] then
      pure ("Here's what I found about admissions:\n\n"
        ++ String.join (general_results.map (fun r => r.snippet ++ "\n\n")))
    else
      pure ("For detailed admission information, please visit the university's official website or contact the admissions office directly.")

/-- The department card built by `handle_department_query` on a hit. -/
def deptCard (dept_info : DeptRec) : String :=
  "**" ++ dept_info.name ++ "**\n"
  ++ (if dept_info.description ≠ "" then
        "Description: " ++ dept_info.description ++ "\n" else "")
  ++ (if dept_info.head ≠ "" then
        "Department Head: " ++ dept_info.head ++ "\n" else "")
  ++ (if dept_info.faculty_count ≠ "" then
        "Faculty Members: " ++ dept_info.faculty_count ++ "\n" else "")
  ++ (if dept_info.programs ≠ "" then
        "Programs: " ++ dept_info.programs ++ "\n" else "")

/-- Model of `handle_department_query(query, entities)`. -/
def handle_department_query (kb : KB) (query : String) (entities : Entities) :
    Option String :=
  match entities.department.bind (fun d => get_department_info kb.department_index d) with
  | some dept_info => some (deptCard dept_info)
  | none => do
    let search_results ← semantic_search kb query 3
    let dept_results := search_results.filter (fun r => decide (r.category = "department"))
    if dept_results ≠ [] then
      pure ("Here's information about departments:\n\n"
        ++ String.join (dept_results.map fmtTitleSnippet))
    else
      pure ("I couldn't find specific department information. Please provide more details about which department you're interested in.")

/-- One bullet of the notifications listing. -/
def notifFmt (notification : NotifRec) : String :=
  "‚Ä¢ **" ++ notification.title ++ "**\n"
  ++ (if notification.date ≠ "" then "  Date: " ++ notification.date ++ "\n" else "")
  ++ (if notification.content ≠ "" then
        "  " ++ pyTake notification.content 100 ++ "...\n\n" else "")

/-- Model of `handle_notifications_query(query)`. -/
def handle_notifications_query (kb : KB) (query : String) : Option String :=
  let recent_notifications := get_recent_notifications kb 5
  if recent_notifications ≠ [] then
    some ("**Recent University Notifications:**\n\n"
      ++ String.join (recent_notifications.map notifFmt))
  else do
    let search_results ← semantic_search kb query 3
    let notification_results := search_results.filter (fun r =>
      decide (r.category = "notifications"))
    if notification_results ≠ [] then
      pure ("**University Updates:**\n\n"
        ++ String.join (notification_results.map fmtTitleSnippet))
    else
      pure ("Please check the university's official website for the latest notifications and announcements.")

/-- Model of `handle_general_query(query)`. -/
def handle_general_query (kb : KB) (query : String) : Option String := do
  let search_results ← semantic_search kb query 5
  if search_results = [] then
    pure ("I'm sorry, I couldn't find specific information about that. Could you please rephrase your question or be more specific?")
  else
    let high_relevance := search_results.filter (fun r =>
      decide ((1 : ℚ)/10 < r.relevance_score))
    let medium_relevance := search_results.filter (fun r =>
      decide ((1 : ℚ)/20 < r.relevance_score ∧ r.relevance_score ≤ (1 : ℚ)/10))
    let part1 :=
      if high_relevance ≠ [] then
        "Here's what I found:\n\n" ++ String.join ((high_relevance.take 2).map fmtTitleSnippet)
      else ""
    let part2 :=
      if medium_relevance ≠ [] ∧ high_relevance.length < 2 then
        "Additional information:\n\n"
          ++ String.join ((medium_relevance.take 1).map fmtTitleSnippet)
      else ""
    pure (part1 ++ part2
      ++ "\nüí° *You can ask me about faculty members, departments, admissions, research, or recent notifications.*")

/-- Model of `generate_response(query)`: classify, extract entities, dispatch. -/
def generate_response (kb : KB) (query : String) : Option String :=
  let intent := detect_intent query
  let entities := extract_entities query
  if intent = "faculty_info" then handle_faculty_query kb query entities
  else if intent = "admissions" then handle_admissions_query kb query
  else if intent = "departments" then handle_department_query kb query entities
  else if intent = "notifications" then handle_notifications_query kb query
  else handle_general_query kb query

/-- One entry of the conversation log (`'query'`/`'response'` value in
the `content` field, `'user'`/`'bot'` in `type`). -/
structure HistEntry where
  timestamp : String
  content : String
  type : String
  deriving Repr, DecidableEq

/-- Model of `chat(query)`: append the user entry, generate the response, append
the bot entry.  The result is the returned text (`none` when
`generate_response` raises) together with the conversation history
after the call; an exception propagates before the bot entry is
appended. -/
def chat (kb : KB) (now1 now2 : String) (conversation_history : List HistEntry)
    (query : String) : Option String × List HistEntry :=
  let h1 := conversation_history ++ [⟨now1, query, "user"⟩]
  match generate_response kb query with
  | none => (none, h1)
  | some response => (some response, h1 ++ [⟨now2, response, "bot"⟩])

/-! ### Specification-side definitions

These follow the wording of the specification claims, to be compared
with the definitions embedded from the source. -/

/-- The relevance formula exactly as claim C3 states it: term-frequency
sum times `|distinct query tokens present in docTokens| / |queryTokens|`. -/
def score_spec (queryTokens : List String) (documentText : String) : ℚ :=
  let docTokens := preprocess_text documentText
  let n := docTokens.length
  if n = 0 then 0
  else
    (queryTokens.map (fun t => (docTokens.count t : ℚ) / (n : ℚ))).sum *
      (((listDedup queryTokens).filter (fun t => decide (t ∈ docTokens))).length : ℚ) /
      (queryTokens.length : ℚ)

/-- The token-level relevance score actually computed by
`calculate_tf_idf`: the coverage numerator counts query-token
occurrences (with multiplicity) present in the document tokens. -/
def scoreTok (queryTokens docTokens : List String) : ℚ :=
  if docTokens.length = 0 then 0
  else
    (queryTokens.map (fun t => (docTokens.count t : ℚ) / (docTokens.length : ℚ))).sum *
      ((queryTokens.filter (fun t => decide (t ∈ docTokens))).length : ℚ) /
      (queryTokens.length : ℚ)

/-- Claim C3 amended: coverage counts query-token occurrences with
multiplicity, not distinct query tokens. -/
def score_amended (queryTokens : List String) (documentText : String) : ℚ :=
  scoreTok queryTokens (preprocess_text documentText)

/-- The maximum hit count over a score table (0 for the empty table). -/
def maxVal (l : List (String × Nat)) : Nat := (l.map Prod.snd).foldr max 0

/-- Intent classification exactly as claim C7 states it: the category
with the highest hit count, ties broken by the earliest category in the
fixed order, `general` when nothing scores above zero. -/
def detect_intent_spec (query : String) : String :=
  let query_lower := toLowerStr query
  let scores := intent_patterns.map (fun ik =>
    (ik.1, (ik.2.filter (fun keyword => strContains query_lower keyword)).length))
  if maxVal scores = 0 then "general"
  else
    match scores.find? (fun p => decide (p.2 = maxVal scores)) with
    | some p => p.1
    | none => "general"

/-- Faculty lookup exactly as claim C10 states it: exact key match
first, otherwise the first faculty record, in index iteration order,
whose lowercased name contains the whole lowercased query or any
whitespace-separated token of it as a substring. -/
def find_faculty_spec (faculty_index : List (String × FacultyRec)) (name : String) :
    Option FacultyRec :=
  let name_lower := toLowerStr name
  match (faculty_index.find? (fun p => decide (p.1 = name_lower))).map Prod.snd with
  | some r => some r
  | none =>
    (faculty_index.map Prod.snd).find? (fun r =>
      strContains (toLowerStr r.name) name_lower ||
        (pySplitWs name_lower).any (fun part => strContains (toLowerStr r.name) part))

/-! ### Concrete fixtures used in the claim evaluations -/

/-- A three-page same-domain chain `a → b → c`. -/
def web3 : Web := fun u =>
  if u = "https://uom.edu.pk/a" then some ⟨["https://uom.edu.pk/b"], ["text a"]⟩
  else if u = "https://uom.edu.pk/b" then some ⟨["https://uom.edu.pk/c"], ["text b"]⟩
  else if u = "https://uom.edu.pk/c" then some ⟨[], ["text c"]⟩
  else none

/-- A knowledge base holding a single page with non-empty content. -/
def kb_one_page : KB :=
  { pages := [{ url := "https://uom.edu.pk/admissions", title := "Admissions",
                content := "university admission information",
                content_type := "admissions" }],
    faculty := [], departments := [], notifications := [],
    faculty_index := [], department_index := [] }

/-! ### Helper lemmas -/

theorem listInfixOf_append_left (n l₂ : List Char) :
    ∀ l₁, listInfixOf n l₂ = true → listInfixOf n (l₁ ++ l₂) = true := by
  intro l₁ h
  induction l₁ with
  | nil => simpa using h
  | cons c l₁ ih => simp [listInfixOf, ih]

theorem strContains_append_right (a b n : String) (h : strContains b n = true) :
    strContains (a ++ b) n = true := by
  unfold strContains at h ⊢
  have hl : (a ++ b).toList = a.toList ++ b.toList := by
    simp [String.toList]
  rw [hl]
  exact listInfixOf_append_left _ _ _ h

/-! ### Claim C1 -/

/-- Claim C1: The claim says `chat` never raises for a well-formed string
query, returning a guidance string even when no tokens survive
preprocessing and the knowledge base has pages with non-empty content.
The code disagrees: for the query `"a"` (no surviving tokens) against a
knowledge base with one non-empty page, `calculate_tf_idf` divides by
`len(query_words) = 0` and the `ZeroDivisionError` propagates out of
`chat` (modelled by the `none` result); only the user log entry has
been appended when the exception escapes. -/
theorem chat_raises_on_token_free_query :
    chat kb_one_page "t1" "t2" [] "a"
      = (none, [{ timestamp := "t1", content := "a", type := "user" }]) := by
  rfl

/-! ### Claim C2 -/

/-- Claim C2: The claim says `crawl(seed, maxPages)` visits at most
`maxPages` pages.  The source `crawl` takes no page-count parameter at
all: on a three-page chain it visits all 3 pages (so no ceiling of 1 or
2 is respected); the run ends only because the frontier empties. -/
theorem crawl_unbounded_without_page_cap :
    (crawl web3 10 "https://uom.edu.pk/a").visited.length = 3 ∧
    (crawl web3 10 "https://uom.edu.pk/a").queue = [] := by
  exact ⟨rfl, rfl⟩

/-! ### Claim C8 -/

/-- Claim C8: Knowledge-base construction fails, with a message directing
the caller to run the crawler first, exactly when the database file
does not exist; when the file exists the four collections are loaded
and no error is raised. -/
theorem load_fails_iff_store_absent (data_dir : String) (fs : String → Option DB) :
    ((∃ msg, load_knowledge_base data_dir fs = Except.error msg) ↔
      fs (data_dir ++ "/university_knowledge.db") = none) ∧
    (∀ msg, load_knowledge_base data_dir fs = Except.error msg →
      strContains msg "Please run data_scraper.py first" = true) ∧
    (∀ conn, fs (data_dir ++ "/university_knowledge.db") = some conn →
      load_knowledge_base data_dir fs = Except.ok
        { pages := conn.pages, faculty := conn.faculty,
          departments := conn.departments, notifications := conn.notifications }) := by
  cases h : fs (data_dir ++ "/university_knowledge.db") with
  | none =>
    have he : load_knowledge_base data_dir fs = Except.error
        ("Knowledge base not found at " ++ (data_dir ++ "/university_knowledge.db") ++
          ". Please run data_scraper.py first.") := by
      simp only [load_knowledge_base, h]
    refine ⟨⟨fun _ => rfl, fun _ => ⟨_, he⟩⟩, ?_, ?_⟩
    · intro msg hmsg
      rw [he] at hmsg
      injection hmsg with hm
      rw [← hm]
      exact strContains_append_right _ _ _ (by decide)
    · intro conn hc
      cases hc
  | some conn =>
    have hok : load_knowledge_base data_dir fs = Except.ok
        { pages := conn.pages, faculty := conn.faculty,
          departments := conn.departments, notifications := conn.notifications } := by
      simp only [load_knowledge_base, h]
    refine ⟨⟨?_, fun hn => by cases hn⟩, ?_, ?_⟩
    · rintro ⟨msg, hmsg⟩
      rw [hok] at hmsg
      cases hmsg
    · intro msg hmsg
      rw [hok] at hmsg
      cases hmsg
    · intro conn' hc
      injection hc with hc'
      rw [← hc']
      exact hok

/-- Witness for C8 at concrete inputs: an absent store produces the
distinguished error, a present store loads. -/
theorem load_fails_iff_store_absent_witness :
    (∃ msg, load_knowledge_base "university_data" (fun _ => none) = Except.error msg) ∧
    load_knowledge_base "university_data" (fun _ => some ⟨[], [], [], []⟩) =
      Except.ok { pages := [], faculty := [], departments := [], notifications := [] } :=
  ⟨(load_fails_iff_store_absent "university_data" (fun _ => none)).1.mpr rfl,
   (load_fails_iff_store_absent "university_data" (fun _ => some ⟨[], [], [], []⟩)).2.2
     ⟨[], [], [], []⟩ rfl⟩

/-! ### Crawl-loop step lemmas and invariants -/

theorem get_all_links_fail (web : Web) (visited : List String) (url : String)
    (h : web url = none) : get_all_links web visited url = ⟨[], none, visited⟩ := by
  simp only [get_all_links, h]

theorem crawlLoop_queue_nil (web : Web) (f : Nat) (s : CrawlState)
    (hq : s.queue = []) : crawlLoop web (f + 1) s = s := by
  simp only [crawlLoop, hq]

theorem crawlLoop_fail_step (web : Web) (f : Nat) (s : CrawlState) (current : String)
    (rest : List String) (hq : s.queue = current :: rest) (hw : web current = none) :
    crawlLoop web (f + 1) s =
      crawlLoop web f { s with queue := rest, fetched := s.fetched ++ [current] } := by
  simp only [crawlLoop, hq, get_all_links_fail web s.visited current hw]

theorem crawlLoop_ok_step (web : Web) (f : Nat) (s : CrawlState) (current : String)
    (rest : List String) (page : SPage) (hq : s.queue = current :: rest)
    (hs : (get_all_links web s.visited current).soup = some page) :
    crawlLoop web (f + 1) s = crawlLoop web f
      { visited := (enqueueLinks (get_all_links web s.visited current).links
          (get_all_links web s.visited current).visited rest s.admitted).1,
        pdf_links := findPdfsLoop page.anchors s.pdf_links,
        store := if extract_text page ≠ "" then
            save_content s.store current (extract_text page) else s.store,
        queue := (enqueueLinks (get_all_links web s.visited current).links
          (get_all_links web s.visited current).visited rest s.admitted).2.1,
        admitted := (enqueueLinks (get_all_links web s.visited current).links
          (get_all_links web s.visited current).visited rest s.admitted).2.2,
        fetched := s.fetched ++ [current] } := by
  simp only [crawlLoop, hq, hs]

theorem get_all_links_visited_sub (web : Web) (visited : List String) (url : String) :
    visited ⊆ (get_all_links web visited url).visited := by
  unfold get_all_links
  cases web url with
  | none => exact fun x hx => hx
  | some page =>
    dsimp only
    split
    · exact fun x hx => hx
    · exact List.subset_append_left _ _

theorem enqueueLinks_visited_sub (links : List String) :
    ∀ v q a, v ⊆ (enqueueLinks links v q a).1 := by
  induction links with
  | nil => intro v q a; exact fun x hx => hx
  | cons l rest ih =>
    intro v q a
    unfold enqueueLinks
    split
    · exact ih v q a
    · exact (List.subset_append_left v [l]).trans (ih _ _ _)

theorem crawlLoop_visited_sub (web : Web) :
    ∀ (f : Nat) (s : CrawlState), s.visited ⊆ (crawlLoop web f s).visited := by
  intro f
  induction f with
  | zero => intro s; exact fun x hx => hx
  | succ f ih =>
    intro s
    cases hq : s.queue with
    | nil =>
      rw [crawlLoop_queue_nil web f s hq]
      exact fun x hx => hx
    | cons current rest =>
      cases hw : web current with
      | none =>
        rw [crawlLoop_fail_step web f s current rest hq hw]
        exact ih { s with queue := rest, fetched := s.fetched ++ [current] }
      | some page =>
        have hs : (get_all_links web s.visited current).soup = some page := by
          simp [get_all_links, hw]
        rw [crawlLoop_ok_step web f s current rest page hq hs]
        refine List.Subset.trans ?_ (ih _)
        exact List.Subset.trans (get_all_links_visited_sub web s.visited current)
          (enqueueLinks_visited_sub _ _ _ _)

theorem enqueueLinks_admitted_invariant (links : List String) :
    ∀ v q a, a.Nodup → (∀ x ∈ a, x ∈ v) →
      ((enqueueLinks links v q a).2.2.Nodup ∧
        ∀ x ∈ (enqueueLinks links v q a).2.2, x ∈ (enqueueLinks links v q a).1) := by
  induction links with
  | nil => intro v q a h1 h2; exact ⟨h1, h2⟩
  | cons l rest ih =>
    intro v q a h1 h2
    unfold enqueueLinks
    split
    · exact ih v q a h1 h2
    · next hmem =>
      apply ih
      · have hla : l ∉ a := fun hx => hmem (h2 l hx)
        simp [List.nodup_append, h1, hla]
      · intro x hx
        rcases List.mem_append.mp hx with h | h
        · exact List.mem_append_left _ (h2 x h)
        · exact List.mem_append_right _ h

theorem enqueueLinks_queue_admitted_parallel (links : List String) :
    ∀ v q a, ∃ n, (enqueueLinks links v q a).2.1 = q ++ n ∧
      (enqueueLinks links v q a).2.2 = a ++ n := by
  induction links with
  | nil => intro v q a; exact ⟨[], by simp [enqueueLinks]⟩
  | cons l rest ih =>
    intro v q a
    unfold enqueueLinks
    split
    · exact ih v q a
    · obtain ⟨n, hn1, hn2⟩ := ih (v ++ [l]) (q ++ [l]) (a ++ [l])
      exact ⟨l :: n, by simpa using hn1, by simpa using hn2⟩

/-- The loop invariant behind claim C4: the admission trace has no
duplicates, every admitted URL is visited, and the admission trace is
exactly the fetched URLs followed by the pending queue. -/
def CrawlInv (s : CrawlState) : Prop :=
  s.admitted.Nodup ∧ (∀ x ∈ s.admitted, x ∈ s.visited) ∧
    s.admitted = s.fetched ++ s.queue

theorem crawlLoop_invariant (web : Web) :
    ∀ (f : Nat) (s : CrawlState), CrawlInv s → CrawlInv (crawlLoop web f s) := by
  intro f
  induction f with
  | zero => intro s h; exact h
  | succ f ih =>
    intro s h
    obtain ⟨hnd, hsub, heq⟩ := h
    cases hq : s.queue with
    | nil => rw [crawlLoop_queue_nil web f s hq]; exact ⟨hnd, hsub, heq⟩
    | cons current rest =>
      cases hw : web current with
      | none =>
        rw [crawlLoop_fail_step web f s current rest hq hw]
        apply ih
        refine ⟨hnd, hsub, ?_⟩
        rw [heq, hq]
        simp
      | some page =>
        have hs : (get_all_links web s.visited current).soup = some page := by
          simp [get_all_links, hw]
        rw [crawlLoop_ok_step web f s current rest page hq hs]
        apply ih
        have hsub' : ∀ x ∈ s.admitted, x ∈ (get_all_links web s.visited current).visited :=
          fun x hx => get_all_links_visited_sub web s.visited current (hsub x hx)
        obtain ⟨hnd', hsub''⟩ := enqueueLinks_admitted_invariant
          (get_all_links web s.visited current).links
          (get_all_links web s.visited current).visited rest s.admitted hnd hsub'
        obtain ⟨n, hq', ha'⟩ := enqueueLinks_queue_admitted_parallel
          (get_all_links web s.visited current).links
          (get_all_links web s.visited current).visited rest s.admitted
        refine ⟨hnd', hsub'', ?_⟩
        dsimp only
        rw [ha', hq', heq, hq]
        simp

/-! ### Claim C4 -/

/-- Claim C4: Over any web, any fuel and any seed, the trace of URLs ever
admitted to the Frontier during a crawl run has no duplicates (the
Visited Set gates admission and is updated together with each enqueue),
and consequently the trace of URLs fetched has no duplicates either. -/
theorem crawl_admits_each_url_at_most_once (web : Web) (fuel : Nat) (start_url : String) :
    (crawl web fuel start_url).admitted.Nodup ∧
    (crawl web fuel start_url).fetched.Nodup := by
  have h := crawlLoop_invariant web fuel
    { visited := [start_url], pdf_links := [], store := [],
      queue := [start_url], admitted := [start_url], fetched := [] }
    ⟨by simp, by simp, by simp⟩
  refine ⟨h.1, ?_⟩
  have hnd := h.1
  rw [h.2.2] at hnd
  exact (List.nodup_append.mp hnd).1

/-! ### Claim C5 -/

/-- Claim C5: When fetching the current URL fails, `get_all_links`
returns no links and no page body and leaves the visited set untouched;
the whole remaining run is exactly the run on the rest of the queue
with unchanged visited set, pdf list and store (so exactly this one
page is degraded and nothing is written for it); and the URL stays
marked visited for the rest of the run. -/
theorem crawl_fetch_failure_degrades_one_page (web : Web) (f : Nat) (s : CrawlState)
    (current : String) (rest : List String)
    (hq : s.queue = current :: rest) (hw : web current = none) :
    get_all_links web s.visited current = ⟨[], none, s.visited⟩ ∧
    crawlLoop web (f + 1) s =
      crawlLoop web f { s with queue := rest, fetched := s.fetched ++ [current] } ∧
    (current ∈ s.visited → current ∈ (crawlLoop web (f + 1) s).visited) := by
  refine ⟨get_all_links_fail web s.visited current hw,
    crawlLoop_fail_step web f s current rest hq hw, ?_⟩
  intro hv
  rw [crawlLoop_fail_step web f s current rest hq hw]
  exact crawlLoop_visited_sub web f _ hv

/-- Witness for C5: a one-URL frontier whose fetch fails. -/
theorem crawl_fetch_failure_degrades_one_page_witness :
    get_all_links (fun _ => none) ["https://uom.edu.pk/x"] "https://uom.edu.pk/x"
      = ⟨[], none, ["https://uom.edu.pk/x"]⟩ ∧
    crawlLoop (fun _ => none) 1
        ⟨["https://uom.edu.pk/x"], [], [], ["https://uom.edu.pk/x"],
          ["https://uom.edu.pk/x"], []⟩
      = crawlLoop (fun _ => none) 0
        ⟨["https://uom.edu.pk/x"], [], [], [], ["https://uom.edu.pk/x"],
          ["https://uom.edu.pk/x"]⟩ ∧
    "https://uom.edu.pk/x" ∈ (crawlLoop (fun _ => none) 1
        ⟨["https://uom.edu.pk/x"], [], [], ["https://uom.edu.pk/x"],
          ["https://uom.edu.pk/x"], []⟩).visited := by
  have h := crawl_fetch_failure_degrades_one_page (fun _ => none) 0
    ⟨["https://uom.edu.pk/x"], [], [], ["https://uom.edu.pk/x"],
      ["https://uom.edu.pk/x"], []⟩ "https://uom.edu.pk/x" [] rfl rfl
  exact ⟨h.1, h.2.1, h.2.2 (by simp)⟩

/-! ### Relevance-score lemmas (claims C3 and C6) -/

theorem tfLoop_eq (dw : List String) (n : ℚ) (hn : 0 < n) :
    ∀ (q : List String) (acc : ℚ),
      tfLoop dw n q acc = acc + (q.map (fun w => (dw.count w : ℚ) / n)).sum := by
  intro q
  induction q with
  | nil => intro acc; simp [tfLoop]
  | cons w rest ih =>
    intro acc
    have hstep : tfLoop dw n (w :: rest) acc =
        if 0 < (dw.count w : ℚ) / n then tfLoop dw n rest (acc + (dw.count w : ℚ) / n)
        else tfLoop dw n rest acc := rfl
    rw [hstep, List.map_cons, List.sum_cons]
    by_cases hpos : 0 < (dw.count w : ℚ) / n
    · rw [if_pos hpos, ih]
      ring
    · rw [if_neg hpos, ih]
      have h0 : (0 : ℚ) ≤ (dw.count w : ℚ) / n := div_nonneg (by positivity) hn.le
      have hc : ((dw.count w : ℚ) / n) = 0 := le_antisymm (not_lt.mp hpos) h0
      rw [hc]
      ring

/-- Evaluation lemma: `calculate_tf_idf` on a non-empty query-word list returns exactly the
token-level score of the preprocessed document. -/
theorem calculate_tf_idf_eq_scoreTok (q : List String) (d : String) (hq : q ≠ []) :
    calculate_tf_idf q d = some (scoreTok q (preprocess_text d)) := by
  simp only [calculate_tf_idf, scoreTok]
  by_cases h0 : (preprocess_text d).length = 0
  · simp [h0]
  · have hn : (0 : ℚ) < ((preprocess_text d).length : ℚ) := by
      exact_mod_cast Nat.pos_of_ne_zero h0
    have hql : ¬ q.length = 0 := by
      simpa [List.length_eq_zero] using hq
    rw [if_neg h0, if_neg h0, if_neg hql, tfLoop_eq _ _ hn q 0, zero_add]

theorem map_div_sum (f : String → ℕ) (c : ℚ) :
    ∀ q : List String,
      (q.map (fun w => (f w : ℚ) / c)).sum = (((q.map f).sum : ℕ) : ℚ) / c := by
  intro q
  induction q with
  | nil => simp
  | cons a q' ih =>
    simp only [List.map_cons, List.sum_cons, ih]
    push_cast
    rw [add_div]

theorem count_singleton_eq (w t : String) : List.count w [t] = if w == t then 1 else 0 := by
  by_cases h : w = t
  · subst h
    simp
  · have h1 : (t == w) = false := beq_eq_false_iff_ne.mpr (Ne.symm h)
    have h2 : (w == t) = false := beq_eq_false_iff_ne.mpr h
    rw [List.count_cons, List.count_nil, h1, h2]
    simp

theorem sum_counts_append_singleton (dt : List String) (t : String) :
    ∀ q : List String, (q.map (fun w => (dt ++ [t]).count w)).sum
      = (q.map (fun w => dt.count w)).sum + q.count t := by
  intro q
  induction q with
  | nil => simp
  | cons w q' ih =>
    rw [List.map_cons, List.sum_cons, List.map_cons, List.sum_cons, ih, List.count_append,
      count_singleton_eq, List.count_cons]
    omega

theorem count_filter_ne (w a : String) (hwa : w ≠ a) :
    ∀ dt : List String, (dt.filter (fun x => !(x == a))).count w = dt.count w := by
  intro dt
  induction dt with
  | nil => rfl
  | cons b dt ih =>
    rw [List.filter_cons]
    cases hba : (b == a)
    · rw [Bool.not_false, if_pos rfl, List.count_cons, List.count_cons, ih]
    · rw [Bool.not_true, if_neg (by simp), ih, List.count_cons]
      have hb : b = a := by simpa using hba
      have hbw : b ≠ w := fun hc => hwa ((hc ▸ hb : w = a))
      rw [beq_eq_false_iff_ne.mpr hbw]
      simp

theorem length_filter_ne_add_count (a : String) :
    ∀ dt : List String, (dt.filter (fun x => !(x == a))).length + dt.count a = dt.length := by
  intro dt
  induction dt with
  | nil => rfl
  | cons b dt ih =>
    rw [List.filter_cons, List.count_cons]
    cases hba : (b == a)
    · rw [Bool.not_false, if_pos rfl, if_neg (by simp), List.length_cons, List.length_cons]
      omega
    · rw [Bool.not_true, if_neg (by simp), if_pos rfl, List.length_cons]
      omega

theorem sum_counts_le_length :
    ∀ (q : List String), q.Nodup → ∀ dt : List String,
      (q.map (fun w => dt.count w)).sum ≤ dt.length := by
  intro q
  induction q with
  | nil => intro _ dt; simp
  | cons a q' ih =>
    intro hnd dt
    obtain ⟨hna, hnd'⟩ := List.nodup_cons.mp hnd
    rw [List.map_cons, List.sum_cons]
    have hmap : (q'.map (fun w => dt.count w)).sum
        = (q'.map (fun w => (dt.filter (fun x => !(x == a))).count w)).sum := by
      refine congrArg List.sum (List.map_congr_left ?_)
      intro w hw
      exact (count_filter_ne w a (fun h => hna (h ▸ hw)) dt).symm
    have h1 := ih hnd' (dt.filter (fun x => !(x == a)))
    have h2 := length_filter_ne_add_count a dt
    rw [hmap]
    omega

theorem filter_mem_append_singleton_mem (q dt : List String) (t : String) (hin : t ∈ dt) :
    (q.filter (fun w => decide (w ∈ dt ++ [t]))).length
      = (q.filter (fun w => decide (w ∈ dt))).length := by
  have h : ∀ w ∈ q, (decide (w ∈ dt ++ [t])) = (decide (w ∈ dt)) := by
    intro w _
    simp only [List.mem_append, List.mem_singleton, decide_eq_decide]
    constructor
    · rintro (h | rfl)
      · exact h
      · exact hin
    · exact Or.inl
  rw [List.filter_congr h]

theorem filter_mem_append_singleton_not_mem :
    ∀ (q : List String), q.Nodup → ∀ (dt : List String) (t : String), t ∉ dt → t ∈ q →
      (q.filter (fun w => decide (w ∈ dt ++ [t]))).length
        = (q.filter (fun w => decide (w ∈ dt))).length + 1 := by
  intro q
  induction q with
  | nil => intro _ dt t _ ht; cases ht
  | cons a q' ih =>
    intro hnd dt t hnin ht
    obtain ⟨hna, hnd'⟩ := List.nodup_cons.mp hnd
    rcases List.mem_cons.mp ht with heq0 | hta
    · subst heq0
      have h1 : (decide (t ∈ dt ++ [t])) = true := by simp
      have h2 : (decide (t ∈ dt)) = false := by simp [hnin]
      rw [List.filter_cons, List.filter_cons, h1, h2, if_pos rfl, if_neg (by simp)]
      have heq : q'.filter (fun w => decide (w ∈ dt ++ [t]))
          = q'.filter (fun w => decide (w ∈ dt)) := by
        refine List.filter_congr ?_
        intro w hw
        have hwt : w ≠ t := fun h => hna (h ▸ hw)
        simp only [List.mem_append, List.mem_singleton, decide_eq_decide]
        constructor
        · rintro (h | rfl)
          · exact h
          · exact absurd rfl hwt
        · exact Or.inl
      rw [heq, List.length_cons]
    · have hat : a ≠ t := fun h => hna (h ▸ hta)
      have hsame : (decide (a ∈ dt ++ [t])) = (decide (a ∈ dt)) := by
        simp only [List.mem_append, List.mem_singleton, decide_eq_decide]
        constructor
        · rintro (h | rfl)
          · exact h
          · exact absurd rfl hat
        · exact Or.inl
      have hrec := ih hnd' dt t hnin hta
      rw [List.filter_cons, List.filter_cons, hsame]
      cases hd : (decide (a ∈ dt))
      · rw [if_neg (by simp), if_neg (by simp)]
        exact hrec
      · rw [if_pos rfl, if_pos rfl, List.length_cons, List.length_cons]
        omega

/-- Appending one occurrence of a query token to the document tokens
never decreases the score, provided the query tokens are pairwise
distinct. -/
theorem scoreTok_append_mono (q dt : List String) (t : String)
    (hnd : q.Nodup) (ht : t ∈ q) : scoreTok q dt ≤ scoreTok q (dt ++ [t]) := by
  have hq : q ≠ [] := List.ne_nil_of_mem ht
  have hL : 0 < q.length := List.length_pos.mpr hq
  have hLq : (0 : ℚ) < (q.length : ℚ) := by exact_mod_cast hL
  by_cases hdt : dt.length = 0
  · have hdt' : dt = [] := List.length_eq_zero.mp hdt
    subst hdt'
    simp only [scoreTok, List.nil_append]
    rw [if_pos (show ([] : List String).length = 0 from rfl),
      if_neg (show ¬ (([t] : List String).length = 0) by simp)]
    have hsum : (0 : ℚ) ≤ (q.map (fun w =>
        ((([t] : List String).count w : ℚ) / ((([t] : List String).length : ℚ))))).sum := by
      apply List.sum_nonneg
      intro x hx
      simp only [List.mem_map] at hx
      obtain ⟨w, _, rfl⟩ := hx
      positivity
    exact div_nonneg (mul_nonneg hsum (by positivity)) hLq.le
  · have hn : 0 < dt.length := Nat.pos_of_ne_zero hdt
    have hnq : (0 : ℚ) < (dt.length : ℚ) := by exact_mod_cast hn
    simp only [scoreTok]
    rw [if_neg hdt, if_neg (by simp : ¬ ((dt ++ [t]).length = 0))]
    rw [map_div_sum, map_div_sum]
    have hS' : (q.map (fun w => (dt ++ [t]).count w)).sum
        = (q.map (fun w => dt.count w)).sum + 1 := by
      rw [sum_counts_append_singleton, List.count_eq_one_of_mem hnd ht]
    rw [hS']
    have hSle := sum_counts_le_length q hnd dt
    have hlen : (dt ++ [t]).length = dt.length + 1 := by simp
    rw [hlen]
    have hSleQ : ((q.map (fun w => dt.count w)).sum : ℚ) ≤ (dt.length : ℚ) := by
      exact_mod_cast hSle
    by_cases hmem : t ∈ dt
    · rw [filter_mem_append_singleton_mem q dt t hmem]
      simp only [Nat.cast_add, Nat.cast_one]
      rw [div_mul_eq_mul_div, div_mul_eq_mul_div, div_div, div_div,
        div_le_div_iff (by positivity) (by positivity)]
      have key : ((q.map (fun w => dt.count w)).sum : ℚ) * ((dt.length : ℚ) + 1)
          ≤ (((q.map (fun w => dt.count w)).sum : ℚ) + 1) * (dt.length : ℚ) := by
        nlinarith [hSleQ]
      calc ((q.map (fun w => dt.count w)).sum : ℚ) *
            ((q.filter (fun w => decide (w ∈ dt))).length : ℚ) *
            (((dt.length : ℚ) + 1) * (q.length : ℚ))
          = (((q.map (fun w => dt.count w)).sum : ℚ) * ((dt.length : ℚ) + 1)) *
            (((q.filter (fun w => decide (w ∈ dt))).length : ℚ) * (q.length : ℚ)) := by
            ring
        _ ≤ ((((q.map (fun w => dt.count w)).sum : ℚ) + 1) * (dt.length : ℚ)) *
            (((q.filter (fun w => decide (w ∈ dt))).length : ℚ) * (q.length : ℚ)) := by
            exact mul_le_mul_of_nonneg_right key (by positivity)
        _ = (((q.map (fun w => dt.count w)).sum : ℚ) + 1) *
            ((q.filter (fun w => decide (w ∈ dt))).length : ℚ) *
            ((dt.length : ℚ) * (q.length : ℚ)) := by
            ring
    · rw [filter_mem_append_singleton_not_mem q hnd dt t hmem ht]
      simp only [Nat.cast_add, Nat.cast_one]
      rw [div_mul_eq_mul_div, div_mul_eq_mul_div, div_div, div_div,
        div_le_div_iff (by positivity) (by positivity)]
      have key : ((q.map (fun w => dt.count w)).sum : ℚ) *
            ((q.filter (fun w => decide (w ∈ dt))).length : ℚ) * ((dt.length : ℚ) + 1)
          ≤ (((q.map (fun w => dt.count w)).sum : ℚ) + 1) *
            (((q.filter (fun w => decide (w ∈ dt))).length : ℚ) + 1) * (dt.length : ℚ) := by
        nlinarith [mul_le_mul_of_nonneg_right hSleQ
            (by positivity : (0 : ℚ) ≤ ((q.filter (fun w => decide (w ∈ dt))).length : ℚ)),
          (by positivity : (0 : ℚ) ≤ ((q.map (fun w => dt.count w)).sum : ℚ)),
          (by positivity : (0 : ℚ) ≤ (dt.length : ℚ)),
          (by positivity : (0 : ℚ) ≤ ((q.filter (fun w => decide (w ∈ dt))).length : ℚ))]
      calc ((q.map (fun w => dt.count w)).sum : ℚ) *
            ((q.filter (fun w => decide (w ∈ dt))).length : ℚ) *
            (((dt.length : ℚ) + 1) * (q.length : ℚ))
          = (((q.map (fun w => dt.count w)).sum : ℚ) *
              ((q.filter (fun w => decide (w ∈ dt))).length : ℚ) *
              ((dt.length : ℚ) + 1)) * (q.length : ℚ) := by
            ring
        _ ≤ ((((q.map (fun w => dt.count w)).sum : ℚ) + 1) *
              (((q.filter (fun w => decide (w ∈ dt))).length : ℚ) + 1) *
              (dt.length : ℚ)) * (q.length : ℚ) := by
            exact mul_le_mul_of_nonneg_right key (by positivity)
        _ = (((q.map (fun w => dt.count w)).sum : ℚ) + 1) *
            (((q.filter (fun w => decide (w ∈ dt))).length : ℚ) + 1) *
            ((dt.length : ℚ) * (q.length : ℚ)) := by
            ring

/-! ### Claim C3 -/

/-- Claim C3 counterexample: The claim's formula uses the number of
*distinct* query tokens present; the code counts query-token
occurrences with multiplicity.  They disagree on the duplicate-token
query `["computer", "computer"]` against `"computer systems lab"`
(code: `2/3`; claim formula: `1/3`). -/
theorem score_spec_coverage_counterexample :
    calculate_tf_idf ["computer", "computer"] "computer systems lab"
      ≠ some (score_spec ["computer", "computer"] "computer systems lab") := by
  rw [calculate_tf_idf_eq_scoreTok _ _ (by decide)]
  intro hesq
  have h := Option.some.inj hesq
  rw [show preprocess_text "computer systems lab" = ["computer", "systems", "lab"] from rfl]
    at h
  have hA : scoreTok ["computer", "computer"] ["computer", "systems", "lab"] = 2/3 := by
    simp only [scoreTok, List.map_cons, List.map_nil, List.sum_cons, List.sum_nil]
    rw [show List.count "computer" ["computer", "systems", "lab"] = 1 from rfl,
      show (["computer", "systems", "lab"] : List String).length = 3 from rfl,
      show ((["computer", "computer"] : List String).filter
        (fun t => decide (t ∈ (["computer", "systems", "lab"] : List String)))).length = 2
        from rfl,
      show (["computer", "computer"] : List String).length = 2 from rfl,
      if_neg (show ¬ ((3 : Nat) = 0) by decide)]
    norm_num
  have hB : score_spec ["computer", "computer"] "computer systems lab" = 1/3 := by
    simp only [score_spec,
      show preprocess_text "computer systems lab" = ["computer", "systems", "lab"] from rfl,
      List.map_cons, List.map_nil, List.sum_cons, List.sum_nil]
    rw [show List.count "computer" ["computer", "systems", "lab"] = 1 from rfl,
      show (["computer", "systems", "lab"] : List String).length = 3 from rfl,
      show ((listDedup ["computer", "computer"]).filter
        (fun t => decide (t ∈ (["computer", "systems", "lab"] : List String)))).length = 1
        from rfl,
      show (["computer", "computer"] : List String).length = 2 from rfl,
      if_neg (show ¬ ((3 : Nat) = 0) by decide)]
    norm_num
  rw [hA, hB] at h
  norm_num at h

/-- Claim C3 amended: For every non-empty query-token list and every
document, the code's score equals the term-frequency sum multiplied by
`(number of query-token occurrences present in docTokens) /
|queryTokens|` — coverage with multiplicity (and the score is 0 when
the document has no surviving token). -/
theorem score_formula_uses_multiplicity_coverage (q : List String) (d : String)
    (hq : q ≠ []) : calculate_tf_idf q d = some (score_amended q d) :=
  calculate_tf_idf_eq_scoreTok q d hq

/-- Witness for the amended C3 at a concrete input. -/
theorem score_formula_uses_multiplicity_coverage_witness :
    (["computer"] : List String) ≠ [] ∧
    calculate_tf_idf ["computer"] "lab computer"
      = some (score_amended ["computer"] "lab computer") :=
  ⟨by decide, score_formula_uses_multiplicity_coverage ["computer"] "lab computer" (by decide)⟩

/-! ### Claim C6 -/

/-- Claim C6 counterexample: With the duplicate-token query
`["ali", "ali", "ali", "khan"]` (the preprocessing of
`"ali ali ali khan"`), appending one more occurrence of the query token
`"khan"` to the document `"ali khan"` strictly *decreases* the score
from `2` to `5/3`. -/
theorem score_monotonicity_counterexample :
    preprocess_text "ali ali ali khan" = ["ali", "ali", "ali", "khan"] ∧
    preprocess_text "ali khan khan" = preprocess_text "ali khan" ++ ["khan"] ∧
    calculate_tf_idf ["ali", "ali", "ali", "khan"] "ali khan" = some 2 ∧
    calculate_tf_idf ["ali", "ali", "ali", "khan"] "ali khan khan" = some (5/3) ∧
    ¬ ((2 : ℚ) ≤ 5/3) := by
  refine ⟨rfl, rfl, ?_, ?_, by norm_num⟩
  · rw [calculate_tf_idf_eq_scoreTok _ _ (by decide),
      show preprocess_text "ali khan" = ["ali", "khan"] from rfl]
    refine congrArg some ?_
    simp only [scoreTok, List.map_cons, List.map_nil, List.sum_cons, List.sum_nil]
    rw [show List.count "ali" ["ali", "khan"] = 1 from rfl,
      show List.count "khan" ["ali", "khan"] = 1 from rfl,
      show (["ali", "khan"] : List String).length = 2 from rfl,
      show ((["ali", "ali", "ali", "khan"] : List String).filter
        (fun t => decide (t ∈ (["ali", "khan"] : List String)))).length = 4 from rfl,
      show (["ali", "ali", "ali", "khan"] : List String).length = 4 from rfl,
      if_neg (show ¬ ((2 : Nat) = 0) by decide)]
    norm_num
  · rw [calculate_tf_idf_eq_scoreTok _ _ (by decide),
      show preprocess_text "ali khan khan" = ["ali", "khan", "khan"] from rfl]
    refine congrArg some ?_
    simp only [scoreTok, List.map_cons, List.map_nil, List.sum_cons, List.sum_nil]
    rw [show List.count "ali" ["ali", "khan", "khan"] = 1 from rfl,
      show List.count "khan" ["ali", "khan", "khan"] = 2 from rfl,
      show (["ali", "khan", "khan"] : List String).length = 3 from rfl,
      show ((["ali", "ali", "ali", "khan"] : List String).filter
        (fun t => decide (t ∈ (["ali", "khan", "khan"] : List String)))).length = 4
        from rfl,
      show (["ali", "ali", "ali", "khan"] : List String).length = 4 from rfl,
      if_neg (show ¬ ((3 : Nat) = 0) by decide)]
    norm_num

/-- Claim C6 amended: For a query whose surviving token list has no
duplicate tokens, appending one additional occurrence of any query
token that survives preprocessing to the document never decreases the
document's relevance score. -/
theorem score_monotone_for_duplicate_free_queries (q : List String) (d t : String)
    (hnd : q.Nodup) (ht : t ∈ q)
    (happ : preprocess_text (d ++ " " ++ t) = preprocess_text d ++ [t]) :
    ∃ r1 r2, calculate_tf_idf q d = some r1 ∧
      calculate_tf_idf q (d ++ " " ++ t) = some r2 ∧ r1 ≤ r2 := by
  have hq : q ≠ [] := List.ne_nil_of_mem ht
  refine ⟨_, _, calculate_tf_idf_eq_scoreTok q d hq,
    calculate_tf_idf_eq_scoreTok q (d ++ " " ++ t) hq, ?_⟩
  rw [happ]
  exact scoreTok_append_mono q (preprocess_text d) t hnd ht

/-- Witness for the amended C6 at a concrete input. -/
theorem score_monotone_for_duplicate_free_queries_witness :
    List.Nodup ["khan"] ∧ "khan" ∈ (["khan"] : List String) ∧
    preprocess_text ("ali khan" ++ " " ++ "khan") = preprocess_text "ali khan" ++ ["khan"] ∧
    (∃ r1 r2, calculate_tf_idf ["khan"] "ali khan" = some r1 ∧
      calculate_tf_idf ["khan"] ("ali khan" ++ " " ++ "khan") = some r2 ∧ r1 ≤ r2) :=
  ⟨by decide, by decide, by rfl,
    score_monotone_for_duplicate_free_queries ["khan"] "ali khan" "khan"
      (by decide) (by decide) (by rfl)⟩

/-! ### Intent-classification lemmas (claim C7) -/

theorem maxVal_cons (a : String × Nat) (l : List (String × Nat)) :
    maxVal (a :: l) = max a.2 (maxVal l) := rfl

/-- Python's `max(d, key=d.get)` over a non-empty association list
returns the first entry attaining the maximal value. -/
theorem foldl_pyMaxStep_find (rest : List (String × Nat)) :
    ∀ first : String × Nat,
      some (rest.foldl pyMaxStep first)
        = (first :: rest).find? (fun p => decide (p.2 = maxVal (first :: rest))) := by
  induction rest with
  | nil =>
    intro first
    have hm : maxVal [first] = first.2 := by rw [maxVal_cons]; simp [maxVal]
    rw [List.foldl_nil, hm, List.find?_cons_of_pos _ (by simp)]
  | cons p rest' ih =>
    intro first
    rw [List.foldl_cons]
    have hple' : p.2 ≤ maxVal (p :: rest') := by rw [maxVal_cons]; omega
    by_cases hcmp : first.2 < p.2
    · have hstep : pyMaxStep first p = p := by simp [pyMaxStep, hcmp]
      rw [hstep, ih p]
      have hM : maxVal (first :: p :: rest') = maxVal (p :: rest') := by
        rw [maxVal_cons, maxVal_cons]
        rw [maxVal_cons] at hple'
        omega
      simp only [hM]
      have hfirst : ¬ (((fun q : String × Nat => decide (q.2 = maxVal (p :: rest'))) first)
          = true) := by
        simp only [decide_eq_true_eq]
        omega
      rw [@List.find?_cons_of_neg _ (fun q : String × Nat =>
        decide (q.2 = maxVal (p :: rest'))) first (p :: rest') hfirst]
    · have hstep : pyMaxStep first p = first := by simp [pyMaxStep, hcmp]
      rw [hstep, ih first]
      have hple : p.2 ≤ first.2 := not_lt.mp hcmp
      have hM : maxVal (first :: p :: rest') = maxVal (first :: rest') := by
        rw [maxVal_cons, maxVal_cons, maxVal_cons]
        omega
      simp only [hM]
      have hfle : first.2 ≤ maxVal (first :: rest') := by rw [maxVal_cons]; omega
      by_cases hface : first.2 = maxVal (first :: rest')
      · rw [@List.find?_cons_of_pos _ (fun q : String × Nat =>
            decide (q.2 = maxVal (first :: rest'))) first rest' (by simp [hface]),
          @List.find?_cons_of_pos _ (fun q : String × Nat =>
            decide (q.2 = maxVal (first :: rest'))) first (p :: rest') (by simp [hface])]
      · have hpne : ¬ (((fun q : String × Nat => decide (q.2 = maxVal (first :: rest'))) p)
            = true) := by
          simp only [decide_eq_true_eq]
          omega
        have hfne : ¬ (((fun q : String × Nat => decide (q.2 = maxVal (first :: rest'))) first)
            = true) := by
          simp only [decide_eq_true_eq]
          exact hface
        rw [@List.find?_cons_of_neg _ (fun q : String × Nat =>
            decide (q.2 = maxVal (first :: rest'))) first rest' hfne,
          @List.find?_cons_of_neg _ (fun q : String × Nat =>
            decide (q.2 = maxVal (first :: rest'))) first (p :: rest') hfne,
          @List.find?_cons_of_neg _ (fun q : String × Nat =>
            decide (q.2 = maxVal (first :: rest'))) p rest' hpne]

theorem filter_pos_maxVal (l : List (String × Nat)) :
    maxVal (l.filter (fun p => decide (0 < p.2))) = maxVal l := by
  induction l with
  | nil => rfl
  | cons a l ih =>
    rw [List.filter_cons]
    cases hd : (decide (0 < a.2))
    · have ha : a.2 = 0 := by simpa using hd
      rw [if_neg (by simp), ih, maxVal_cons, ha]
      omega
    · rw [if_pos rfl, maxVal_cons, maxVal_cons, ih]

theorem filter_pos_find (M : Nat) (hM : 0 < M) :
    ∀ l : List (String × Nat),
      (l.filter (fun p => decide (0 < p.2))).find? (fun p => decide (p.2 = M))
        = l.find? (fun p => decide (p.2 = M)) := by
  intro l
  induction l with
  | nil => rfl
  | cons a l ih =>
    rw [List.filter_cons]
    cases hd : (decide (0 < a.2))
    · have ha : a.2 = 0 := by simpa using hd
      have hne : ¬ (((fun q : String × Nat => decide (q.2 = M)) a) = true) := by
        simp only [decide_eq_true_eq]
        omega
      rw [if_neg (by simp), ih,
        @List.find?_cons_of_neg _ (fun q : String × Nat => decide (q.2 = M)) a l hne]
    · rw [if_pos rfl]
      by_cases he : a.2 = M
      · rw [@List.find?_cons_of_pos _ (fun q : String × Nat => decide (q.2 = M)) a
            (l.filter (fun p => decide (0 < p.2))) (by simp [he]),
          @List.find?_cons_of_pos _ (fun q : String × Nat => decide (q.2 = M)) a l
            (by simp [he])]
      · have hne : ¬ (((fun q : String × Nat => decide (q.2 = M)) a) = true) := by
          simp only [decide_eq_true_eq]
          exact he
        rw [@List.find?_cons_of_neg _ (fun q : String × Nat => decide (q.2 = M)) a
            (l.filter (fun p => decide (0 < p.2))) hne,
          @List.find?_cons_of_neg _ (fun q : String × Nat => decide (q.2 = M)) a l hne, ih]

theorem filter_pos_nil_iff (l : List (String × Nat)) :
    l.filter (fun p => decide (0 < p.2)) = [] ↔ maxVal l = 0 := by
  induction l with
  | nil => simp [maxVal]
  | cons a l ih =>
    rw [List.filter_cons, maxVal_cons]
    cases hd : (decide (0 < a.2))
    · have ha : a.2 = 0 := by simpa using hd
      rw [if_neg (by simp), ha, ih]
      omega
    · have ha : 0 < a.2 := by simpa using hd
      rw [if_pos rfl]
      constructor
      · intro h
        cases h
      · intro h
        omega

/-! ### Claim C7 -/

/-- Claim C7: `detect_intent` computes exactly the specified
classification: count keyword substring hits per category in the
lowercased query, pick the category with the highest count, break ties
by the earliest category in the fixed order, and return `general` when
no keyword hits at all. -/
theorem detect_intent_matches_spec (query : String) :
    detect_intent query = detect_intent_spec query := by
  simp only [detect_intent, detect_intent_spec]
  cases hf : (intent_patterns.map (fun ik =>
      (ik.1, (ik.2.filter (fun keyword =>
        strContains (toLowerStr query) keyword)).length))).filter
      (fun p => decide (0 < p.2)) with
  | nil =>
    have hmax := (filter_pos_nil_iff _).mp hf
    simp [hf, hmax]
  | cons first rest =>
    have hmaxpos : 0 < maxVal (intent_patterns.map (fun ik =>
        (ik.1, (ik.2.filter (fun keyword =>
          strContains (toLowerStr query) keyword)).length))) := by
      by_contra h
      have h0 : maxVal (intent_patterns.map (fun ik =>
          (ik.1, (ik.2.filter (fun keyword =>
            strContains (toLowerStr query) keyword)).length))) = 0 := by omega
      rw [(filter_pos_nil_iff _).mpr h0] at hf
      cases hf
    have h1 := foldl_pyMaxStep_find rest first
    simp only [← hf, filter_pos_maxVal, filter_pos_find _ hmaxpos] at h1
    simp only [hf]
    rw [if_neg (by omega)]
    cases hfind : (intent_patterns.map (fun ik =>
        (ik.1, (ik.2.filter (fun keyword =>
          strContains (toLowerStr query) keyword)).length))).find?
        (fun p => decide (p.2 = maxVal (intent_patterns.map (fun ik =>
          (ik.1, (ik.2.filter (fun keyword =>
            strContains (toLowerStr query) keyword)).length))))) with
    | none =>
      rw [hfind] at h1
      cases h1
    | some pr =>
      rw [hfind] at h1
      injection h1 with h1'
      rw [h1']

/-! ### Faculty-index lemmas (claim C10) -/

/-- Every key in the built faculty index is the lowercased name of the
record stored under it. -/
theorem build_faculty_index_key (faculty : List FacultyRec) :
    ∀ p ∈ build_faculty_index faculty, p.1 = toLowerStr p.2.name := by
  suffices h : ∀ idx : List (String × FacultyRec),
      (∀ p ∈ idx, p.1 = toLowerStr p.2.name) →
      ∀ p ∈ faculty.foldl (fun idx faculty_member =>
        let name := toLowerStr faculty_member.name
        if name ≠ "" then insertOrUpdate idx name faculty_member else idx) idx,
      p.1 = toLowerStr p.2.name by
    exact h [] (by simp)
  induction faculty with
  | nil =>
    intro idx h p hp
    rw [List.foldl_nil] at hp
    exact h p hp
  | cons m fs ih =>
    intro idx h p hp
    rw [List.foldl_cons] at hp
    refine ih _ ?_ p hp
    intro q hq
    dsimp only at hq
    by_cases hname : toLowerStr m.name ≠ ""
    · rw [if_pos hname] at hq
      unfold insertOrUpdate at hq
      by_cases hany : idx.any (fun p => decide (p.1 = toLowerStr m.name))
      · rw [if_pos hany] at hq
        rcases List.mem_map.mp hq with ⟨r, hr, hrq⟩
        by_cases hr1 : r.1 = toLowerStr m.name
        · rw [if_pos hr1] at hrq
          rw [← hrq]
        · rw [if_neg hr1] at hrq
          rw [← hrq]
          exact h r hr
      · rw [if_neg hany] at hq
        rcases List.mem_append.mp hq with h1 | h1
        · exact h q h1
        · rcases List.mem_singleton.mp h1 with rfl
          rfl
    · rw [if_neg hname] at hq
      exact h q hq

theorem find?_congr_mem {α : Type} (p q : α → Bool) :
    ∀ l : List α, (∀ x ∈ l, p x = q x) → l.find? p = l.find? q := by
  intro l
  induction l with
  | nil => intro _; rfl
  | cons a l ih =>
    intro h
    simp only [List.find?_cons, h a (List.mem_cons_self a l)]
    cases hqa : q a
    · exact ih (fun x hx => h x (List.mem_cons_of_mem _ hx))
    · rfl

/-! ### Claim C10 -/

/-- Claim C10: `find_faculty_by_name` over an index built by
`build_indexes` behaves exactly as specified: an exact lowercased-key
match returns that record with priority; otherwise the first record in
index iteration order whose lowercased name contains the whole
lowercased query, or any whitespace-separated token of it, as a
substring; `none` exactly when no record qualifies. -/
theorem find_faculty_by_name_matches_spec (faculty : List FacultyRec) (name : String) :
    find_faculty_by_name (build_faculty_index faculty) name
      = find_faculty_spec (build_faculty_index faculty) name := by
  have hinv := build_faculty_index_key faculty
  simp only [find_faculty_by_name, find_faculty_spec]
  cases hx : (build_faculty_index faculty).find?
      (fun p => decide (p.1 = toLowerStr name)) with
  | some pr => simp [hx]
  | none =>
    simp only [hx, Option.map_none']
    rw [List.find?_map]
    refine congrArg (Option.map Prod.snd) ?_
    apply find?_congr_mem
    intro x hx'
    show (strContains x.1 (toLowerStr name) ||
        (pySplitWs (toLowerStr name)).any (fun part => strContains x.1 part)) = _
    rw [hinv x hx']
    rfl

/-! ### Claim C9 -/

/-- Claim C9: First part (holds): response generation never reads the
conversation log — for any knowledge base and query, the returned text
is the same whatever the prior history.  Second part (refutes the
append contract): on a query whose score computation raises, `chat`
appends only the timestamped user entry — no bot entry is ever logged,
so not every call appends one user entry and one bot entry. -/
theorem chat_response_ignores_history :
    (∀ (kb : KB) (t1 t2 q : String) (h1 h2 : List HistEntry),
      (chat kb t1 t2 h1 q).1 = (chat kb t1 t2 h2 q).1) ∧
    chat kb_one_page "t1" "t2"
        [{ timestamp := "t0", content := "hello", type := "user" }] "an"
      = (none, [{ timestamp := "t0", content := "hello", type := "user" },
                { timestamp := "t1", content := "an", type := "user" }]) := by
  constructor
  · intro kb t1 t2 q h1 h2
    unfold chat
    cases generate_response kb q <;> rfl
  · rfl
